import Mathlib

/-!
Formal model of the xView-to-YOLO annotation conversion script
(`scripts/convert_xview_to_yolo.py`) and of the dataset splitting script
(`scripts/split_dataset.py`) of the repository.

Real arithmetic is modelled with `ℚ`; every numeric value occurring in the
verified scenarios is a dyadic rational that Python's binary floats represent
exactly, so the rational model agrees with the script's float arithmetic
there.  Python's fixed six-decimal float formatting is modelled by
round-half-to-even decimal rounding, which is the rounding CPython uses when
formatting a float with a fixed number of fractional digits.
-/

namespace YOLO

attribute [local semireducible] Rat.mul Rat.add Rat.inv Rat.sub

/-- Round half to even, on rationals.  This is the rounding CPython applies
to the (exactly represented) value of a float when formatting it with a
fixed number of decimals. -/
def rhe (q : ℚ) : ℤ :=
  if q - (⌊q⌋ : ℚ) < 1/2 then ⌊q⌋
  else if 1/2 < q - (⌊q⌋ : ℚ) then ⌊q⌋ + 1
  else if ⌊q⌋ % 2 = 0 then ⌊q⌋ else ⌊q⌋ + 1

/-- The rational value actually denoted by the six-decimal rendering of `q`. -/
def round6 (q : ℚ) : ℚ := (rhe (q * 1000000) : ℚ) / 1000000

/-- Left-pad a numeral string with zeros to six characters. -/
def padZeros6 (s : String) : String :=
  String.mk (List.replicate (6 - s.length) '0') ++ s

/-- Models Python's fixed six-decimal float formatting (as in the format
spec `.6f`) for a nonnegative value; every geometric field the converter
emits is nonnegative. -/
def fmt6 (q : ℚ) : String :=
  let n := (rhe (q * 1000000)).toNat
  toString (n / 1000000) ++ "." ++ padZeros6 (toString (n % 1000000))

/-- Characters removed by Python's `str.strip()` (ASCII whitespace). -/
def isPySpace (c : Char) : Bool :=
  c == ' ' || c == '\t' || c == '\n' || c == '\r' || c == Char.ofNat 11 || c == Char.ofNat 12

/-- Models Python's `str.strip()`. -/
def pyStrip (cs : List Char) : List Char :=
  ((cs.dropWhile isPySpace).reverse.dropWhile isPySpace).reverse

/-- Split a character list on a separator character, Python `str.split(sep)`
semantics (adjacent separators yield empty fields). -/
def splitOnChar (sep : Char) : List Char → List (List Char)
  | [] => [[]]
  | c :: rest =>
    match splitOnChar sep rest with
    | h :: t => if c == sep then [] :: h :: t else (c :: h) :: t
    | [] => if c == sep then [[], []] else [[c]]

/-- Numeric value of a run of decimal digit characters. -/
def digitsVal (cs : List Char) : Nat :=
  cs.foldl (fun n c => n * 10 + (c.toNat - 48)) 0

/-- Models Python's `float()` on decimal literals: optional surrounding
whitespace, optional sign, digits with an optional decimal point (at least
one digit overall).  Inputs outside this fragment (exponents, `inf`, `nan`,
underscores) are rejected, matching the annotation stores in scope whose
coordinate fields are plain decimal numerals. -/
def parseFloatChars (cs0 : List Char) : Option ℚ :=
  let cs := pyStrip cs0
  let sb : ℚ × List Char :=
    match cs with
    | '-' :: rest => (-1, rest)
    | '+' :: rest => (1, rest)
    | _ => (1, cs)
  match splitOnChar '.' sb.2 with
  | [ip] =>
    if ip ≠ [] ∧ ip.all Char.isDigit then some (sb.1 * (digitsVal ip : ℚ)) else none
  | [ip, fp] =>
    if (ip ≠ [] ∨ fp ≠ []) ∧ ip.all Char.isDigit ∧ fp.all Char.isDigit then
      some (sb.1 * ((digitsVal (ip ++ fp) : ℚ) / (10 : ℚ) ^ fp.length))
    else none
  | _ => none

/-- A pixel-space bounding box `(xmin, ymin, xmax, ymax)`. -/
structure Box4 where
  xmin : ℚ
  ymin : ℚ
  xmax : ℚ
  ymax : ℚ
deriving DecidableEq

/-- Models the `bounds_imcoords` branch of the converter's main loop
(lines 213-219): the raw string is rejected when empty or `"nan"`, split on
commas, each field parsed as a float (a parse failure raises and is caught
by the surrounding handler, leaving the annotation invalid, exactly like a
non-four-field result). -/
def parseBoundsQ (s : String) : Option Box4 :=
  if s = "" ∨ s = "nan" then none
  else
    match (splitOnChar ',' s.toList).mapM parseFloatChars with
    | some [a, b, c, d] => some ⟨a, b, c, d⟩
    | _ => none

/-- Models `_extract_bbox_from_geometry` on a polygon ring: the axis-aligned
bounding box of the vertex coordinates; an empty ring raises inside the
helper's try-block and yields `None`. -/
def extractBBoxFromGeometry : List (ℚ × ℚ) → Option Box4
  | [] => none
  | p :: ps =>
    some ⟨(ps.map Prod.fst).foldl min p.1, (ps.map Prod.snd).foldl min p.2,
          (ps.map Prod.fst).foldl max p.1, (ps.map Prod.snd).foldl max p.2⟩

/-- One annotation record, with the fields the converter's loop probes:
`classType` is the integer taxonomy identifier obtained from the
`type` / `class_type` / `type_id` keys (`none` when no such key is present),
`bounds` is the string value of the `bounds_imcoords` key when that key is
present, and `geometry` is the polygon ring of the record's geometry. -/
structure RawAnn where
  classType : Option ℤ
  bounds : Option String
  geometry : Option (List (ℚ × ℚ))
deriving DecidableEq

/-- Models lines 212-225 of the converter: when the `bounds_imcoords` key is
present the bounds string alone decides the box (the `elif` means the
geometry is never consulted in that case); only when the key is absent is
the geometry's bounding box used. -/
def resolveBBox (ann : RawAnn) : Option Box4 :=
  match ann.bounds with
  | some s => parseBoundsQ s
  | none =>
    match ann.geometry with
    | some g => extractBBoxFromGeometry g
    | none => none

/-- The class map built by `_load_class_mapping` from the built-in default
dictionary: the sorted raw identifiers `11,12,13,15,21,37,52,57,58,59` are
assigned dense indices `0..9` in ascending order. -/
def defaultClassMap : List (ℤ × ℕ) :=
  [(11, 0), (12, 1), (13, 2), (15, 3), (21, 4), (37, 5), (52, 6), (57, 7), (58, 8), (59, 9)]

/-- Dictionary lookup in a class map. -/
def lookupClass (cm : List (ℤ × ℕ)) (k : ℤ) : Option ℕ :=
  (cm.find? (fun p => p.1 == k)).map (fun p => p.2)

/-- The normalized center/size quadruple before formatting. -/
structure YoloNums where
  xc : ℚ
  yc : ℚ
  bw : ℚ
  bh : ℚ
deriving DecidableEq

/-- Models `_bbox_to_yolo_format` up to (but not including) string
formatting: clamp each coordinate into the image frame, compute normalized
center and extent, and reject degenerate results. -/
def bboxToYoloNums (b : Box4) (w h : ℚ) : Option YoloNums :=
  let xmin := max 0 (min b.xmin w)
  let ymin := max 0 (min b.ymin h)
  let xmax := max 0 (min b.xmax w)
  let ymax := max 0 (min b.ymax h)
  let xc := ((xmin + xmax) / 2) / w
  let yc := ((ymin + ymax) / 2) / h
  let bw := (xmax - xmin) / w
  let bh := (ymax - ymin) / h
  if bw ≤ 0 ∨ bh ≤ 0 ∨ xc < 0 ∨ yc < 0 then none
  else some ⟨xc, yc, bw, bh⟩

/-- Models `_bbox_to_yolo_format` including its six-decimal f-string. -/
def bboxToYoloFormat (b : Box4) (w h : ℚ) : Option String :=
  (bboxToYoloNums b w h).map fun r =>
    fmt6 r.xc ++ " " ++ fmt6 r.yc ++ " " ++ fmt6 r.bw ++ " " ++ fmt6 r.bh

/-- The four possible fates of one annotation inside the converter's
per-image loop (lines 195-236). -/
inductive AnnResult where
  | skippedClass
  | invalid
  | degenerate
  | emitted (rawClass : ℤ) (yoloId : ℕ) (line : String)
deriving DecidableEq

/-- Models one iteration of the converter's per-annotation loop body:
resolve the taxonomy identifier (an identifier absent from the class map is
skipped), resolve the box (failure is an invalid annotation), normalize
(degenerate results are dropped), otherwise emit. -/
def processAnn (cm : List (ℤ × ℕ)) (w h : ℚ) (ann : RawAnn) : AnnResult :=
  match ann.classType with
  | none => .skippedClass
  | some ct =>
    match lookupClass cm ct with
    | none => .skippedClass
    | some yid =>
      match resolveBBox ann with
      | none => .invalid
      | some bbox =>
        match bboxToYoloFormat bbox w h with
        | none => .degenerate
        | some line => .emitted ct yid line

/-- The label-file line appended for an emitted annotation (line 230). -/
def labelLine (yid : ℕ) (line : String) : String :=
  toString yid ++ " " ++ line ++ "\n"

/-- The statistics fields the per-annotation loop can change
(`invalid_annotations` and `objects_by_class`; `total_objects` is only
updated after the loop, when the label file is written). -/
structure ConvStats where
  totalObjects : ℕ
  invalidAnnotations : ℕ
  objectsByClass : List (ℤ × ℕ)
deriving DecidableEq

/-- Increment of a `defaultdict(int)` counter keyed by raw class. -/
def bumpClass (l : List (ℤ × ℕ)) (k : ℤ) : List (ℤ × ℕ) :=
  match l with
  | [] => [(k, 1)]
  | (a, n) :: rest => if a = k then (a, n + 1) :: rest else (a, n) :: bumpClass rest k

/-- One iteration of the per-annotation loop acting on the accumulated
statistics and label lines. -/
def groupStep (cm : List (ℤ × ℕ)) (w h : ℚ) (acc : ConvStats × List String) (ann : RawAnn) :
    ConvStats × List String :=
  match processAnn cm w h ann with
  | .skippedClass => acc
  | .invalid =>
      ({ acc.1 with invalidAnnotations := acc.1.invalidAnnotations + 1 }, acc.2)
  | .degenerate => acc
  | .emitted rc yid line =>
      ({ acc.1 with objectsByClass := bumpClass acc.1.objectsByClass rc },
        acc.2 ++ [labelLine yid line])

/-- The whole per-annotation loop over a matched annotation group. -/
def processGroup (cm : List (ℤ × ℕ)) (w h : ℚ) (anns : List RawAnn)
    (acc : ConvStats × List String) : ConvStats × List String :=
  anns.foldl (groupStep cm w h) acc

/-- The label lines accumulated by the loop over one image's group. -/
def groupLines (cm : List (ℤ × ℕ)) (w h : ℚ) (anns : List RawAnn) : List String :=
  (processGroup cm w h anns (⟨0, 0, []⟩, [])).2

/-- One discovered image file: its extension-less stem, its filename with
extension, and the decode result (`some (h, w)` holds the pixel height and
width from the decoded array's shape; `none` models a failed `cv2.imread`). -/
structure ImageRecord where
  stem : String
  filename : String
  decoded : Option (ℕ × ℕ)
deriving DecidableEq

/-- What the converter's per-image iteration does for one image. -/
inductive ImageOutcome where
  | skipped
  | emptyLabel
  | noFile
  | labelFile (content : String)
deriving DecidableEq

/-- Models lines 180-182: look the group up under the extension-less stem,
falling back to the extension-included filename when that yields nothing
(a `defaultdict`-free `.get(key, [])` returns the empty list for an absent
key). -/
def imageAnns (idx : String → List RawAnn) (im : ImageRecord) : List RawAnn :=
  let a := idx im.stem
  if a.isEmpty then idx im.filename else a

/-- Models the per-image body of `convert` (lines 166-243): a decode
failure is skipped (no label file); an image with no matched group gets an
empty label file via `touch`; a matched group is folded through the
per-annotation loop, and the label file is written only when at least one
line survived. -/
def convertImage (cm : List (ℤ × ℕ)) (idx : String → List RawAnn) (im : ImageRecord) :
    ImageOutcome :=
  match im.decoded with
  | none => .skipped
  | some (hh, ww) =>
    let anns := imageAnns idx im
    if anns.isEmpty then .emptyLabel
    else
      let lines := groupLines cm (ww : ℚ) (hh : ℚ) anns
      if lines.isEmpty then .noFile else .labelFile (String.join lines)

/-- The label file path for an image stem (`labels_dir / f"stem.txt"`). -/
def labelPath (stem : String) : String := "labels/" ++ stem ++ ".txt"

/-- The two filesystem effects the conversion loop performs on label files.
`touch` models `Path.touch()`: it creates an empty file when the path is
absent and otherwise leaves the existing contents unchanged; `write` models
`open(path, "w")` followed by `writelines`, which truncates. -/
inductive FsAction where
  | touch (path : String)
  | write (path : String) (content : String)
deriving DecidableEq

/-- The path an action acts on. -/
def actionPath : FsAction → String
  | .touch p => p
  | .write p _ => p

/-- A filesystem: file contents by path, `none` when the file is absent. -/
abbrev FileSys := String → Option String

/-- Apply one filesystem action. -/
def applyAction (fs : FileSys) : FsAction → FileSys
  | .touch p => fun q => if q = p then some ((fs p).getD "") else fs q
  | .write p c => fun q => if q = p then some c else fs q

/-- Apply a list of actions in order. -/
def runActs (fs : FileSys) (acts : List FsAction) : FileSys :=
  acts.foldl applyAction fs

/-- The filesystem actions the conversion loop performs for one image. -/
def imageActions (cm : List (ℤ × ℕ)) (idx : String → List RawAnn) (im : ImageRecord) :
    List FsAction :=
  match convertImage cm idx im with
  | .skipped => []
  | .noFile => []
  | .emptyLabel => [.touch (labelPath im.stem)]
  | .labelFile c => [.write (labelPath im.stem) c]

/-- All filesystem actions of one conversion run over the image corpus. -/
def runActions (cm : List (ℤ × ℕ)) (idx : String → List RawAnn)
    (images : List ImageRecord) : List FsAction :=
  (images.map (imageActions cm idx)).flatten

/-- The filesystem after one conversion run starting from `fs`. -/
def runConvert (cm : List (ℤ × ℕ)) (idx : String → List RawAnn)
    (images : List ImageRecord) (fs : FileSys) : FileSys :=
  runActs fs (runActions cm idx images)

/-- The filesystem with no files. -/
def emptyFs : FileSys := fun _ => none

/-! ### The dataset splitter (`scripts/split_dataset.py`) -/

/-- Python's `int()` on a rational value: truncation toward zero. -/
def pyint (q : ℚ) : ℤ := if 0 ≤ q then ⌊q⌋ else -⌊-q⌋

/-- Normalization of one Python slice endpoint against a list length:
negative indices count from the end and both ends clamp into range. -/
def sliceIdx (len : ℕ) (i : ℤ) : ℕ :=
  if i < 0 then ((len : ℤ) + i).toNat else min i.toNat len

/-- Python's `l[a:b]`. -/
def pySlice (l : List α) (a b : ℤ) : List α :=
  (l.take (sliceIdx l.length b)).drop (sliceIdx l.length a)

/-- Python's `l[a:]`. -/
def pySliceFrom (l : List α) (a : ℤ) : List α :=
  l.drop (sliceIdx l.length a)

/-- Models lines 77-84 of `DatasetSplitter.split`: cut indices
`train_end = int(train_ratio * total)` and
`val_end = train_end + int(val_ratio * total)`, then the three slices
`[:train_end]`, `[train_end:val_end]`, `[val_end:]` of the shuffled pairs. -/
def splitRun (tr vr : ℚ) (shuffled : List α) : List α × List α × List α :=
  let total : ℕ := shuffled.length
  let trainEnd : ℤ := pyint (tr * total)
  let valEnd : ℤ := trainEnd + pyint (vr * total)
  (pySlice shuffled 0 trainEnd, pySlice shuffled trainEnd valEnd, pySliceFrom shuffled valEnd)

/-- Modelled from the spec's words, for comparison with `splitRun`:
partition by index cut points with `trainCount = floor(trainRatio * N)` and
`valCount = floor(valRatio * N)`, train taking `[0, trainCount)`, val taking
`[trainCount, trainCount + valCount)` and test the remainder. -/
def specSplitPartition (tr vr : ℚ) (shuffled : List α) : List α × List α × List α :=
  let n : ℕ := shuffled.length
  let trainCount : ℕ := (⌊tr * n⌋).toNat
  let valCount : ℕ := (⌊vr * n⌋).toNat
  (shuffled.take trainCount, (shuffled.drop trainCount).take valCount,
    shuffled.drop (trainCount + valCount))

/-- The ratio precondition of `DatasetSplitter.__init__` (line 34). -/
def ratiosOk (tr vr te : ℚ) : Bool := decide (|tr + vr + te - 1| ≤ 1/100)

/-- The six partition directories `__init__` creates after validation. -/
def splitterDirs : List String :=
  ["images/train", "images/val", "images/test", "labels/train", "labels/val", "labels/test"]

/-- Models `DatasetSplitter.__init__` (lines 32-51): the ratio sum is
validated first and a violation raises before any directory is created;
on success the six output directories are created. -/
def splitterInit (tr vr te : ℚ) : Except String (List String) :=
  if |tr + vr + te - 1| > 1/100 then .error "Ratios must sum to 1.0"
  else .ok splitterDirs

/-- An enumerated image file at split time. -/
structure SplitImage where
  name : String
  stem : String
deriving DecidableEq

/-- Models lines 65-69: retain exactly the enumerated images whose
same-stem label file exists. -/
def validPairs (images : List SplitImage) (labelExists : String → Bool) :
    List SplitImage :=
  images.filter (fun im => labelExists im.stem)

/-! ### Helper lemmas about Python slices -/

theorem take_min_len {α : Type} (l : List α) (k : ℕ) :
    l.take (min k l.length) = l.take k := by
  rcases le_total k l.length with h | h
  · rw [min_eq_left h]
  · rw [min_eq_right h, List.take_of_length_le h, List.take_of_length_le (le_refl _)]

theorem drop_min_of_le {α : Type} (m : List α) (k N : ℕ) (h : m.length ≤ N) :
    m.drop (min k N) = m.drop k := by
  rcases le_total k N with hk | hk
  · rw [min_eq_left hk]
  · rw [min_eq_right hk, List.drop_eq_nil_of_le h, List.drop_eq_nil_of_le (le_trans h hk)]

/-- For nonnegative ratios the code's Python slices agree with the spec's
floor-based cut-point partition. -/
theorem splitRun_eq_spec {α : Type} (tr vr : ℚ) (l : List α)
    (htr : 0 ≤ tr) (hvr : 0 ≤ vr) :
    splitRun tr vr l = specSplitPartition tr vr l := by
  have hn : (0:ℚ) ≤ (l.length : ℚ) := Nat.cast_nonneg _
  have h1 : 0 ≤ tr * (l.length : ℚ) := mul_nonneg htr hn
  have h2 : 0 ≤ vr * (l.length : ℚ) := mul_nonneg hvr hn
  have hf1 : 0 ≤ ⌊tr * (l.length : ℚ)⌋ := Int.floor_nonneg.mpr h1
  have hf2 : 0 ≤ ⌊vr * (l.length : ℚ)⌋ := Int.floor_nonneg.mpr h2
  have e1 : pyint (tr * (l.length : ℚ)) = ⌊tr * (l.length : ℚ)⌋ := if_pos h1
  have e2 : pyint (vr * (l.length : ℚ)) = ⌊vr * (l.length : ℚ)⌋ := if_pos h2
  have hadd : (⌊tr * (l.length : ℚ)⌋ + ⌊vr * (l.length : ℚ)⌋).toNat
      = (⌊tr * (l.length : ℚ)⌋).toNat + (⌊vr * (l.length : ℚ)⌋).toNat :=
    Int.toNat_add hf1 hf2
  have hs0 : sliceIdx l.length 0 = 0 := by
    simp [sliceIdx]
  have hsa : sliceIdx l.length ⌊tr * (l.length : ℚ)⌋
      = min (⌊tr * (l.length : ℚ)⌋).toNat l.length := by
    unfold sliceIdx
    rw [if_neg (not_lt.mpr hf1)]
  have hsb : sliceIdx l.length (⌊tr * (l.length : ℚ)⌋ + ⌊vr * (l.length : ℚ)⌋)
      = min ((⌊tr * (l.length : ℚ)⌋).toNat + (⌊vr * (l.length : ℚ)⌋).toNat) l.length := by
    unfold sliceIdx
    rw [if_neg (not_lt.mpr (by omega)), hadd]
  unfold splitRun specSplitPartition pySlice pySliceFrom
  simp only [e1, e2, hs0, hsa, hsb, Prod.mk.injEq]
  refine ⟨?_, ?_, ?_⟩
  · rw [List.drop_zero, take_min_len]
  · rw [take_min_len,
      drop_min_of_le _ _ _ (by rw [List.length_take]; exact min_le_right _ _),
      List.drop_take]
    congr 1
    omega
  · rw [drop_min_of_le _ _ _ (le_refl _)]

/-! ### Helper lemmas about the conversion run's filesystem effects -/

theorem labelPath_inj {s t : String} (h : labelPath s = labelPath t) : s = t := by
  unfold labelPath at h
  have hd := congrArg String.data h
  simp only [String.data_append] at hd
  have h1 := List.append_cancel_right hd
  have h2 := List.append_cancel_left h1
  cases s
  cases t
  simp_all

theorem actionPath_imageActions {cm : List (ℤ × ℕ)} {idx : String → List RawAnn}
    {im : ImageRecord} {a : FsAction} (ha : a ∈ imageActions cm idx im) :
    actionPath a = labelPath im.stem := by
  unfold imageActions at ha
  split at ha <;> simp_all [actionPath]

theorem runActs_frame (fs : FileSys) (acts : List FsAction) (q : String)
    (h : ∀ a ∈ acts, actionPath a ≠ q) : runActs fs acts q = fs q := by
  induction acts generalizing fs with
  | nil => rfl
  | cons a rest ih =>
    have hq : actionPath a ≠ q := h a (List.mem_cons_self a rest)
    have hrest : ∀ b ∈ rest, actionPath b ≠ q := fun b hb => h b (List.mem_cons_of_mem a hb)
    show runActs (applyAction fs a) rest q = fs q
    rw [ih (applyAction fs a) hrest]
    cases a with
    | touch p =>
      simp only [actionPath] at hq
      simp only [applyAction]
      rw [if_neg (fun hqp => hq hqp.symm)]
    | write p c =>
      simp only [actionPath] at hq
      simp only [applyAction]
      rw [if_neg (fun hqp => hq hqp.symm)]

/-- Actions contributed by images whose stem differs from `st` never touch
the label path of `st`. -/
theorem runActs_other_images (cm : List (ℤ × ℕ)) (idx : String → List RawAnn)
    (l : List ImageRecord) (st : String) (hst : st ∉ l.map ImageRecord.stem)
    (fs : FileSys) :
    runActs fs (l.map (imageActions cm idx)).flatten (labelPath st) = fs (labelPath st) := by
  refine runActs_frame fs _ _ (fun a ha => ?_)
  obtain ⟨s, hs, has⟩ := List.mem_flatten.mp ha
  obtain ⟨im', him', rfl⟩ := List.mem_map.mp hs
  rw [actionPath_imageActions has]
  intro hpq
  exact hst (List.mem_map.mpr ⟨im', him', labelPath_inj hpq⟩)

/-- The effect of a whole conversion run on the label path of one of its
images (all stems distinct): a skipped image and an image whose matched
group is fully filtered leave that path untouched; an image with no group
gets the touch effect (created empty when absent, prior contents kept);
an image with surviving lines gets its label file written outright. -/
theorem runConvert_effect (cm : List (ℤ × ℕ)) (idx : String → List RawAnn)
    (images : List ImageRecord) (im : ImageRecord) (him : im ∈ images)
    (hnd : (images.map ImageRecord.stem).Nodup) (fs : FileSys) :
    ((convertImage cm idx im = .skipped ∨ convertImage cm idx im = .noFile) →
      runConvert cm idx images fs (labelPath im.stem) = fs (labelPath im.stem)) ∧
    (convertImage cm idx im = .emptyLabel →
      runConvert cm idx images fs (labelPath im.stem)
        = some ((fs (labelPath im.stem)).getD "")) ∧
    (∀ c, convertImage cm idx im = .labelFile c →
      runConvert cm idx images fs (labelPath im.stem) = some c) := by
  obtain ⟨pre, post, rfl⟩ := List.append_of_mem him
  have hndm := hnd
  rw [List.map_append, List.map_cons, List.nodup_append] at hndm
  obtain ⟨hnd1, hnd2, hdisj⟩ := hndm
  have hstpre : im.stem ∉ pre.map ImageRecord.stem :=
    fun hmem => hdisj hmem (List.mem_cons_self _ _)
  have hstpost : im.stem ∉ post.map ImageRecord.stem := by
    intro hmem
    exact (List.nodup_cons.mp hnd2).1 hmem
  have hsplit : runActions cm idx (pre ++ im :: post)
      = (pre.map (imageActions cm idx)).flatten
        ++ (imageActions cm idx im ++ (post.map (imageActions cm idx)).flatten) := by
    unfold runActions
    rw [List.map_append, List.map_cons, List.flatten_append, List.flatten_cons]
  have hpre : ∀ g : FileSys,
      runActs g (pre.map (imageActions cm idx)).flatten (labelPath im.stem)
        = g (labelPath im.stem) :=
    fun g => runActs_other_images cm idx pre im.stem hstpre g
  have hpost : ∀ g : FileSys,
      runActs g (post.map (imageActions cm idx)).flatten (labelPath im.stem)
        = g (labelPath im.stem) :=
    fun g => runActs_other_images cm idx post im.stem hstpost g
  have hchain : ∀ g : FileSys, runConvert cm idx (pre ++ im :: post) g
      = runActs (runActs (runActs g (pre.map (imageActions cm idx)).flatten)
          (imageActions cm idx im)) (post.map (imageActions cm idx)).flatten := by
    intro g
    unfold runConvert
    rw [hsplit]
    unfold runActs
    rw [List.foldl_append, List.foldl_append]
  refine ⟨fun hcase => ?_, fun hcase => ?_, fun c hcase => ?_⟩
  · rw [hchain fs, hpost, show imageActions cm idx im = [] from by
      unfold imageActions
      rcases hcase with hc | hc <;> rw [hc]]
    exact hpre fs
  · rw [hchain fs, hpost, show imageActions cm idx im = [.touch (labelPath im.stem)] from by
      unfold imageActions
      rw [hcase]]
    show applyAction (runActs fs (List.map (imageActions cm idx) pre).flatten)
      (.touch (labelPath im.stem)) (labelPath im.stem) = _
    simp [applyAction, hpre fs]
  · rw [hchain fs, hpost, show imageActions cm idx im = [.write (labelPath im.stem) c] from by
      unfold imageActions
      rw [hcase]]
    show applyAction (runActs fs (List.map (imageActions cm idx) pre).flatten)
      (.write (labelPath im.stem) c) (labelPath im.stem) = _
    simp [applyAction]

/-! ### Numeric helper lemmas -/

theorem rhe_sub_abs_le (q : ℚ) : |((rhe q : ℤ) : ℚ) - q| ≤ 1/2 := by
  have h1 : ((⌊q⌋ : ℤ) : ℚ) ≤ q := Int.floor_le q
  have h2 : q < (⌊q⌋ : ℚ) + 1 := Int.lt_floor_add_one q
  unfold rhe
  by_cases hlt : q - ((⌊q⌋ : ℤ) : ℚ) < 1/2
  · rw [if_pos hlt, abs_le]
    constructor <;> linarith
  · rw [if_neg hlt]
    by_cases hgt : 1/2 < q - ((⌊q⌋ : ℤ) : ℚ)
    · rw [if_pos hgt]
      push_cast
      rw [abs_le]
      constructor <;> linarith
    · rw [if_neg hgt]
      by_cases hpar : ⌊q⌋ % 2 = 0
      · rw [if_pos hpar, abs_le]
        constructor <;> linarith
      · rw [if_neg hpar]
        push_cast
        rw [abs_le]
        constructor <;> linarith

theorem round6_sub_abs_le (q : ℚ) : |round6 q - q| ≤ 1/2000000 := by
  have h := rhe_sub_abs_le (q * 1000000)
  unfold round6
  rw [show ((rhe (q * 1000000) : ℚ) / 1000000 - q
      = (((rhe (q * 1000000) : ℤ) : ℚ) - q * 1000000) / 1000000) from by ring]
  rw [abs_div, abs_of_pos (by norm_num : (0:ℚ) < 1000000)]
  linarith

/-! ### Claim theorems -/

/-- C6: for every pixel box and positive image dimensions, every quadruple
the box normalizer emits has all four fields in the unit interval with
strictly positive width and height, and a pixel box lying entirely outside
the image frame is rejected, yielding no emitted line. -/
theorem box_normalizer_range (b : Box4) (w h : ℚ) (hw : 0 < w) (hh : 0 < h) :
    (∀ r, bboxToYoloNums b w h = some r →
      0 ≤ r.xc ∧ r.xc ≤ 1 ∧ 0 ≤ r.yc ∧ r.yc ≤ 1 ∧
      0 < r.bw ∧ r.bw ≤ 1 ∧ 0 < r.bh ∧ r.bh ≤ 1) ∧
    ((b.xmax ≤ 0 ∨ w ≤ b.xmin ∨ b.ymax ≤ 0 ∨ h ≤ b.ymin) →
      bboxToYoloFormat b w h = none) := by
  have hx1l : (0:ℚ) ≤ max 0 (min b.xmin w) := le_max_left 0 _
  have hx2l : (0:ℚ) ≤ max 0 (min b.xmax w) := le_max_left 0 _
  have hy1l : (0:ℚ) ≤ max 0 (min b.ymin h) := le_max_left 0 _
  have hy2l : (0:ℚ) ≤ max 0 (min b.ymax h) := le_max_left 0 _
  have hx1u : max 0 (min b.xmin w) ≤ w := max_le hw.le (min_le_right _ _)
  have hx2u : max 0 (min b.xmax w) ≤ w := max_le hw.le (min_le_right _ _)
  have hy1u : max 0 (min b.ymin h) ≤ h := max_le hh.le (min_le_right _ _)
  have hy2u : max 0 (min b.ymax h) ≤ h := max_le hh.le (min_le_right _ _)
  constructor
  · intro r hr
    simp only [bboxToYoloNums] at hr
    split at hr
    · exact absurd hr (by simp)
    · rename_i hcond
      push_neg at hcond
      obtain ⟨hbw, hbh, hxc, hyc⟩ := hcond
      obtain rfl : (⟨_, _, _, _⟩ : YoloNums) = r := Option.some.inj hr
      refine ⟨hxc, ?_, hyc, ?_, lt_of_not_le (by simpa using hbw),
        ?_, lt_of_not_le (by simpa using hbh), ?_⟩
      · rw [div_le_one hw]
        linarith
      · rw [div_le_one hh]
        linarith
      · rw [div_le_one hw]
        linarith
      · rw [div_le_one hh]
        linarith
  · intro hout
    have hnone : bboxToYoloNums b w h = none := by
      simp only [bboxToYoloNums]
      rw [if_pos]
      rcases hout with hc | hc | hc | hc
      · refine Or.inl (div_nonpos_iff.2 (Or.inr ⟨?_, hw.le⟩))
        have : max 0 (min b.xmax w) = 0 :=
          max_eq_left (le_trans (min_le_left _ _) hc)
        rw [this]
        linarith
      · refine Or.inl (div_nonpos_iff.2 (Or.inr ⟨?_, hw.le⟩))
        have h1 : max 0 (min b.xmin w) = w := by
          rw [min_eq_right hc, max_eq_right hw.le]
        rw [h1]
        linarith
      · refine Or.inr (Or.inl (div_nonpos_iff.2 (Or.inr ⟨?_, hh.le⟩)))
        have : max 0 (min b.ymax h) = 0 :=
          max_eq_left (le_trans (min_le_left _ _) hc)
        rw [this]
        linarith
      · refine Or.inr (Or.inl (div_nonpos_iff.2 (Or.inr ⟨?_, hh.le⟩)))
        have h1 : max 0 (min b.ymin h) = h := by
          rw [min_eq_right hc, max_eq_right hh.le]
        rw [h1]
        linarith
    simp [bboxToYoloFormat, hnone]

/-- Witness for C6: a box fully left of and above a 100 by 100 frame is
rejected. -/
theorem box_normalizer_range_w :
    bboxToYoloFormat ⟨-10, -10, -5, -5⟩ 100 100 = none :=
  (box_normalizer_range ⟨-10, -10, -5, -5⟩ 100 100 (by norm_num) (by norm_num)).2
    (Or.inl (by norm_num))

/-- The denormalization error bound used by C8: a six-decimal rounding of
one normalized field contributes at most half an ulp, so one recovered
pixel corner is off by at most one part in a million of the dimension. -/
theorem denorm_bound (A B target w : ℚ) (hw : 0 < w)
    (hexact : (A - B / 2) * w = target) :
    |(round6 A - round6 B / 2) * w - target| ≤ w / 1000000 := by
  have hA := round6_sub_abs_le A
  have hB := round6_sub_abs_le B
  have key : (round6 A - round6 B / 2) * w - target
      = ((round6 A - A) - (round6 B - B) / 2) * w := by
    rw [← hexact]
    ring
  rw [key, abs_mul, abs_of_pos hw]
  have htri : |(round6 A - A) - (round6 B - B) / 2|
      ≤ |round6 A - A| + |round6 B - B| / 2 := by
    calc |(round6 A - A) - (round6 B - B) / 2|
        ≤ |round6 A - A| + |(round6 B - B) / 2| := abs_sub _ _
      _ = |round6 A - A| + |round6 B - B| / 2 := by
          rw [abs_div, abs_of_pos (by norm_num : (0:ℚ) < 2)]
  have hsmall : |(round6 A - A) - (round6 B - B) / 2| ≤ 1 / 1000000 := by
    linarith
  nlinarith [abs_nonneg ((round6 A - A) - (round6 B - B) / 2)]

/-- The companion of `denorm_bound` for the corner recovered by adding half
the extent. -/
theorem denorm_bound_add (A B target w : ℚ) (hw : 0 < w)
    (hexact : (A + B / 2) * w = target) :
    |(round6 A + round6 B / 2) * w - target| ≤ w / 1000000 := by
  have hA := round6_sub_abs_le A
  have hB := round6_sub_abs_le B
  have key : (round6 A + round6 B / 2) * w - target
      = ((round6 A - A) + (round6 B - B) / 2) * w := by
    rw [← hexact]
    ring
  rw [key, abs_mul, abs_of_pos hw]
  have htri : |(round6 A - A) + (round6 B - B) / 2|
      ≤ |round6 A - A| + |round6 B - B| / 2 := by
    calc |(round6 A - A) + (round6 B - B) / 2|
        ≤ |round6 A - A| + |(round6 B - B) / 2| := abs_add _ _
      _ = |round6 A - A| + |round6 B - B| / 2 := by
          rw [abs_div, abs_of_pos (by norm_num : (0:ℚ) < 2)]
  have hsmall : |(round6 A - A) + (round6 B - B) / 2| ≤ 1 / 1000000 := by
    linarith
  nlinarith [abs_nonneg ((round6 A - A) + (round6 B - B) / 2)]

/-- C8: a proper pixel box lying fully inside a positive image frame is
normalized successfully, and denormalizing the six-decimal rounded
center/size quadruple recovers every original pixel corner to within one
part in a million of the corresponding image dimension. -/
theorem normalize_denormalize (b : Box4) (w h : ℚ) (hw : 0 < w) (hh : 0 < h)
    (h1 : 0 ≤ b.xmin) (h2 : b.xmin < b.xmax) (h3 : b.xmax ≤ w)
    (h4 : 0 ≤ b.ymin) (h5 : b.ymin < b.ymax) (h6 : b.ymax ≤ h) :
    ∃ r, bboxToYoloNums b w h = some r ∧
      |(round6 r.xc - round6 r.bw / 2) * w - b.xmin| ≤ w / 1000000 ∧
      |(round6 r.xc + round6 r.bw / 2) * w - b.xmax| ≤ w / 1000000 ∧
      |(round6 r.yc - round6 r.bh / 2) * h - b.ymin| ≤ h / 1000000 ∧
      |(round6 r.yc + round6 r.bh / 2) * h - b.ymax| ≤ h / 1000000 := by
  have e1 : max 0 (min b.xmin w) = b.xmin := by
    rw [min_eq_left (by linarith), max_eq_right h1]
  have e2 : max 0 (min b.ymin h) = b.ymin := by
    rw [min_eq_left (by linarith), max_eq_right h4]
  have e3 : max 0 (min b.xmax w) = b.xmax := by
    rw [min_eq_left h3, max_eq_right (by linarith)]
  have e4 : max 0 (min b.ymax h) = b.ymax := by
    rw [min_eq_left h6, max_eq_right (by linarith)]
  have hsome : bboxToYoloNums b w h
      = some ⟨((b.xmin + b.xmax) / 2) / w, ((b.ymin + b.ymax) / 2) / h,
              (b.xmax - b.xmin) / w, (b.ymax - b.ymin) / h⟩ := by
    simp only [bboxToYoloNums, e1, e2, e3, e4]
    rw [if_neg]
    push_neg
    refine ⟨div_pos (by linarith) hw, div_pos (by linarith) hh,
      div_nonneg (by linarith) hw.le, div_nonneg (by linarith) hh.le⟩
  refine ⟨_, hsome, ?_, ?_, ?_, ?_⟩
  · refine denorm_bound _ _ _ _ hw ?_
    field_simp
    ring
  · refine denorm_bound_add _ _ _ _ hw ?_
    field_simp
    ring
  · refine denorm_bound _ _ _ _ hh ?_
    field_simp
    ring
  · refine denorm_bound_add _ _ _ _ hh ?_
    field_simp
    ring

/-- Witness for C8: the box (100,100,300,300) inside a 1024 by 1024 frame. -/
theorem normalize_denormalize_w :
    ∃ r, bboxToYoloNums ⟨100, 100, 300, 300⟩ 1024 1024 = some r ∧
      |(round6 r.xc - round6 r.bw / 2) * 1024 - 100| ≤ 1024 / 1000000 ∧
      |(round6 r.xc + round6 r.bw / 2) * 1024 - 300| ≤ 1024 / 1000000 ∧
      |(round6 r.yc - round6 r.bh / 2) * 1024 - 100| ≤ 1024 / 1000000 ∧
      |(round6 r.yc + round6 r.bh / 2) * 1024 - 300| ≤ 1024 / 1000000 :=
  normalize_denormalize ⟨100, 100, 300, 300⟩ 1024 1024 (by norm_num) (by norm_num)
    (by norm_num) (by norm_num) (by norm_num) (by norm_num) (by norm_num) (by norm_num)

/-- C10: converting the annotation with bounds string "100,100,300,300" on
a decodable 1024 by 1024 image, whose taxonomy identifier 13 the default
class map sends to index 2, writes a label file consisting of exactly the
line `2 0.195312 0.195312 0.195312 0.195312` (newline-terminated), every
geometric field at fixed six-decimal precision. -/
theorem scenario_label_line :
    convertImage defaultClassMap
      (fun s => if s = "img5" then [⟨some 13, some "100,100,300,300", none⟩] else [])
      ⟨"img5", "img5.tif", some (1024, 1024)⟩
      = .labelFile "2 0.195312 0.195312 0.195312 0.195312\n" := by
  decide

/-- Modelled from the spec's words in §4.2 and C9, for comparison with
`resolveBBox`: first-success-wins resolution in which a failed
bounds-string rule falls back to the polygon geometry's bounding box. -/
def specResolveBBox (ann : RawAnn) : Option Box4 :=
  match (match ann.bounds with | some s => parseBoundsQ s | none => none) with
  | some b => some b
  | none =>
    match ann.geometry with
    | some g => extractBBoxFromGeometry g
    | none => none

/-- Counterexample to C9: an annotation whose bounds key is present but
holds the unparsable value "nan", while carrying a perfectly resolvable
square polygon.  The code leaves it unresolved (and the conversion loop
counts it invalid); the claimed fallback resolution would return the
polygon's bounding box. -/
theorem geometry_fallback_cex :
    resolveBBox ⟨some 11, some "nan", some [(0, 0), (10, 0), (10, 10), (0, 10)]⟩ = none ∧
    specResolveBBox ⟨some 11, some "nan", some [(0, 0), (10, 0), (10, 10), (0, 10)]⟩
      = some ⟨0, 0, 10, 10⟩ ∧
    processAnn defaultClassMap 100 100
      ⟨some 11, some "nan", some [(0, 0), (10, 0), (10, 10), (0, 10)]⟩ = .invalid := by
  decide

/-- C9 amended: geometry resolution consults the bounds string whenever the
bounds key is present, and its result alone decides the annotation
(no fallback to the polygon, whatever the geometry holds); the polygon
geometry's axis-aligned bounding box is used exactly when the bounds key is
absent. -/
theorem geometry_resolution_order (ann : RawAnn) :
    (∀ s, ann.bounds = some s → resolveBBox ann = parseBoundsQ s) ∧
    (ann.bounds = none → ∀ g, ann.geometry = some g →
      resolveBBox ann = extractBBoxFromGeometry g) := by
  constructor
  · intro s hs
    simp [resolveBBox, hs]
  · intro hb g hg
    simp [resolveBBox, hb, hg]

/-- Witness for the amended C9, at a present, parsable bounds string. -/
theorem geometry_resolution_order_w :
    resolveBBox ⟨some 11, some "1,2,3,4", none⟩ = parseBoundsQ "1,2,3,4" :=
  (geometry_resolution_order ⟨some 11, some "1,2,3,4", none⟩).1 "1,2,3,4" rfl

/-- C7: inside a matched group, an annotation with a mapped class whose box
is unresolvable increments the invalid-annotation counter by exactly one
and changes nothing else; one whose taxonomy identifier is absent from the
class map leaves the whole accumulator unchanged; one whose box is rejected
as degenerate after clamping likewise leaves it unchanged; and in every
case the loop proceeds to the remaining annotations of the group. -/
theorem conversion_counters (cm : List (ℤ × ℕ)) (w h : ℚ)
    (acc : ConvStats × List String) (ann : RawAnn) :
    ((∃ ct yid, ann.classType = some ct ∧ lookupClass cm ct = some yid) →
      (resolveBBox ann = none →
        groupStep cm w h acc ann
          = ({ acc.1 with invalidAnnotations := acc.1.invalidAnnotations + 1 }, acc.2)) ∧
      (∀ bbox, resolveBBox ann = some bbox → bboxToYoloFormat bbox w h = none →
        groupStep cm w h acc ann = acc)) ∧
    ((∃ ct, ann.classType = some ct ∧ lookupClass cm ct = none) →
      groupStep cm w h acc ann = acc) ∧
    (∀ pre post, processGroup cm w h (pre ++ ann :: post) acc
      = processGroup cm w h post (groupStep cm w h (processGroup cm w h pre acc) ann)) := by
  refine ⟨fun hcl => ⟨fun hres => ?_, fun bbox hres hdeg => ?_⟩, fun hcl => ?_,
    fun pre post => ?_⟩
  · obtain ⟨ct, yid, hct, hyid⟩ := hcl
    simp [groupStep, processAnn, hct, hyid, hres]
  · obtain ⟨ct, yid, hct, hyid⟩ := hcl
    simp [groupStep, processAnn, hct, hyid, hres, hdeg]
  · obtain ⟨ct, hct, hyid⟩ := hcl
    simp [groupStep, processAnn, hct, hyid]
  · simp [processGroup, List.foldl_append]

/-- Witness for C7: the accumulator after one malformed-bounds annotation
with a mapped class has its invalid counter at one and nothing else. -/
theorem conversion_counters_w :
    groupStep defaultClassMap 100 100 (⟨0, 0, []⟩, []) ⟨some 11, some "bad", none⟩
      = (⟨0, 1, []⟩, ([] : List String)) :=
  ((conversion_counters defaultClassMap 100 100 (⟨0, 0, []⟩, [])
      ⟨some 11, some "bad", none⟩).1 ⟨11, 0, rfl, rfl⟩).1 (by decide)

/-- C5: the splitter's constructor raises a fatal configuration error, with
no output directory created, exactly when the three ratios' sum differs
from one by more than the 0.01 tolerance; ratios within tolerance are
accepted and the six partition directories are created. -/
theorem splitter_ratio_validation (tr vr te : ℚ) :
    (|tr + vr + te - 1| > 1/100 →
      splitterInit tr vr te = .error "Ratios must sum to 1.0") ∧
    (|tr + vr + te - 1| ≤ 1/100 → splitterInit tr vr te = .ok splitterDirs) := by
  constructor
  · intro hgt
    unfold splitterInit
    rw [if_pos hgt]
  · intro hle
    unfold splitterInit
    rw [if_neg (not_lt.mpr hle)]

/-- Witness for C5: ratios 0.8/0.1/0.05 (sum 0.95) are fatal; the default
0.8/0.15/0.05 is accepted. -/
theorem splitter_ratio_validation_w :
    splitterInit (4/5) (1/10) (1/20) = .error "Ratios must sum to 1.0" ∧
    splitterInit (4/5) (3/20) (1/20) = .ok splitterDirs :=
  ⟨(splitter_ratio_validation (4/5) (1/10) (1/20)).1 (by
      rw [show (4/5 + 1/10 + 1/20 - 1 : ℚ) = -(1/20) from by norm_num, abs_neg,
        abs_of_pos (by norm_num : (0:ℚ) < 1/20)]
      norm_num),
   (splitter_ratio_validation (4/5) (3/20) (1/20)).2 (by norm_num)⟩

/-- Counterexample to C2: the ratio triple (-1/4, 11/20, 7/10) sums to
exactly one, so the splitter accepts it, but `int()` truncates toward zero
while the claim's `floor` rounds down, and Python's negative slice
endpoints count from the end of the list: on ten retained pairs the code
puts eight pairs in train where the claimed floor-based partition puts
none. -/
theorem split_cut_points_cex :
    ratiosOk (-1/4) (11/20) (7/10) = true ∧
    (splitRun (-1/4 : ℚ) (11/20) (List.range 10)).1.length = 8 ∧
    (specSplitPartition (-1/4 : ℚ) (11/20) (List.range 10)).1 = [] ∧
    (splitRun (-1/4 : ℚ) (11/20) (List.range 10)).1
      ≠ (specSplitPartition (-1/4 : ℚ) (11/20) (List.range 10)).1 := by
  decide

/-- C2 amended: for nonnegative train and val ratios (negative ratios pass
the splitter's sum check but make `int()` truncation and Python's
negative-index slicing diverge from the claim), the partition is exactly
the floor-based index-cut-point partition; in particular 950 retained pairs
with ratios 0.8/0.15/0.05 split into 760, 142 and 48. -/
theorem split_cut_points {α : Type} (l : List α) (tr vr : ℚ)
    (htr : 0 ≤ tr) (hvr : 0 ≤ vr) :
    splitRun tr vr l = specSplitPartition tr vr l ∧
    (tr = 4/5 → vr = 3/20 → l.length = 950 →
      (splitRun tr vr l).1.length = 760 ∧ (splitRun tr vr l).2.1.length = 142 ∧
      (splitRun tr vr l).2.2.length = 48) := by
  have heq := splitRun_eq_spec tr vr l htr hvr
  refine ⟨heq, fun htr950 hvr950 hlen => ?_⟩
  subst htr950
  subst hvr950
  have htc : (⌊(4/5 : ℚ) * ((l.length : ℕ) : ℚ)⌋).toNat = 760 := by
    rw [hlen]
    rw [show ⌊(4/5 : ℚ) * ((950 : ℕ) : ℚ)⌋ = 760 from by push_cast; norm_num]
    rfl
  have hvc : (⌊(3/20 : ℚ) * ((l.length : ℕ) : ℚ)⌋).toNat = 142 := by
    rw [hlen]
    rw [show ⌊(3/20 : ℚ) * ((950 : ℕ) : ℚ)⌋ = 142 from by push_cast; norm_num]
    rfl
  rw [heq]
  unfold specSplitPartition
  simp only [List.length_take, List.length_drop, htc, hvc]
  simp only [hlen]
  refine ⟨?_, ?_, ?_⟩ <;> trivial

/-- Witness for the amended C2: test partition size 48 on 950 concrete
retained pairs with the default ratios. -/
theorem split_cut_points_w :
    (splitRun (4/5 : ℚ) (3/20) (List.range 950)).2.2.length = 48 :=
  ((split_cut_points (List.range 950) (4/5) (3/20) (by norm_num) (by norm_num)).2
    rfl rfl (by simp)).2.2

theorem take_drop_partition {α : Type} (l : List α) (a b : ℕ) :
    l.take a ++ ((l.drop a).take b ++ l.drop (a + b)) = l := by
  have h1 : l.drop (a + b) = (l.drop a).drop b := by
    rw [List.drop_drop, Nat.add_comm]
  rw [h1, List.take_append_drop, List.take_append_drop]

/-- Ten distinct enumerated images, all with labels, for the C4
counterexample. -/
def imgsC4 : List SplitImage :=
  ["a", "b", "c", "d", "e", "f", "g", "h", "i", "j"].map (fun s => ⟨s, s⟩)

/-- Counterexample to C4: the ratio triple (-1/2, 4/5, 7/10) sums to
exactly one, so the splitter accepts it; on ten distinct retained pairs the
cut indices become `train_end = -5` and `val_end = 3`, and Python's
negative-index slicing puts the pair with stem "d" into both the train and
the test partition, so the partitions are not pairwise disjoint. -/
theorem split_disjoint_cex :
    ratiosOk (-1/2) (4/5) (7/10) = true ∧
    imgsC4.Nodup ∧
    validPairs imgsC4 (fun _ => true) = imgsC4 ∧
    (⟨"d", "d"⟩ : SplitImage) ∈ (splitRun (-1/2 : ℚ) (4/5) imgsC4).1 ∧
    (⟨"d", "d"⟩ : SplitImage) ∈ (splitRun (-1/2 : ℚ) (4/5) imgsC4).2.2 := by
  decide

/-- C4 amended: for nonnegative train and val ratios (a negative accepted
ratio makes the Python slices overlap, see the counterexample), the three
partitions together are a permutation of exactly the retained
image-label pairs, they are pairwise disjoint when the enumerated images
are distinct, and every partitioned image had a label file at split time. -/
theorem split_partition_invariants (images : List SplitImage)
    (labelExists : String → Bool) (shuffled : List SplitImage) (tr vr : ℚ)
    (hperm : shuffled.Perm (validPairs images labelExists))
    (htr : 0 ≤ tr) (hvr : 0 ≤ vr) (hnd : images.Nodup) :
    ((splitRun tr vr shuffled).1 ++ ((splitRun tr vr shuffled).2.1
        ++ (splitRun tr vr shuffled).2.2)).Perm (validPairs images labelExists) ∧
    List.Disjoint (splitRun tr vr shuffled).1 (splitRun tr vr shuffled).2.1 ∧
    List.Disjoint (splitRun tr vr shuffled).1 (splitRun tr vr shuffled).2.2 ∧
    List.Disjoint (splitRun tr vr shuffled).2.1 (splitRun tr vr shuffled).2.2 ∧
    (∀ im, im ∈ (splitRun tr vr shuffled).1 ∨ im ∈ (splitRun tr vr shuffled).2.1
        ∨ im ∈ (splitRun tr vr shuffled).2.2 → labelExists im.stem = true) := by
  have heq := splitRun_eq_spec tr vr shuffled htr hvr
  have hpart : (splitRun tr vr shuffled).1 ++ ((splitRun tr vr shuffled).2.1
      ++ (splitRun tr vr shuffled).2.2) = shuffled := by
    rw [heq]
    exact take_drop_partition shuffled _ _
  have hvnd : (validPairs images labelExists).Nodup := hnd.filter _
  have hshnd : shuffled.Nodup := hperm.nodup_iff.mpr hvnd
  have hcatnd : ((splitRun tr vr shuffled).1 ++ ((splitRun tr vr shuffled).2.1
      ++ (splitRun tr vr shuffled).2.2)).Nodup := by
    rw [hpart]
    exact hshnd
  obtain ⟨h1, h23, hd123⟩ := List.nodup_append.mp hcatnd
  obtain ⟨h2, h3, hd23⟩ := List.nodup_append.mp h23
  refine ⟨by rw [hpart]; exact hperm, ?_, ?_, hd23, ?_⟩
  · exact fun a ha hav => hd123 ha (List.mem_append_left _ hav)
  · exact fun a ha hat => hd123 ha (List.mem_append_right _ hat)
  · intro im him
    have hsh : im ∈ shuffled := by
      rw [← hpart]
      rcases him with h | h | h
      · exact List.mem_append_left _ h
      · exact List.mem_append_right _ (List.mem_append_left _ h)
      · exact List.mem_append_right _ (List.mem_append_right _ h)
    exact (List.mem_filter.mp (hperm.mem_iff.mp hsh)).2

/-- C1: in a conversion run begun on an empty output directory, a decodable
image with no annotation group under either its extension-less stem or its
extension-included filename ends the run with an empty (zero byte) label
file named after its stem, while a decodable image whose matched group
exists but is entirely filtered out ends the run with no label file at
all. -/
theorem empty_vs_missing_label (cm : List (ℤ × ℕ)) (idx : String → List RawAnn)
    (images : List ImageRecord) (im : ImageRecord) (him : im ∈ images)
    (hnd : (images.map ImageRecord.stem).Nodup) (hh ww : ℕ)
    (hdec : im.decoded = some (hh, ww)) :
    (idx im.stem = [] → idx im.filename = [] →
      runConvert cm idx images emptyFs (labelPath im.stem) = some "") ∧
    (imageAnns idx im ≠ [] →
      groupLines cm (ww : ℚ) (hh : ℚ) (imageAnns idx im) = [] →
      runConvert cm idx images emptyFs (labelPath im.stem) = none) := by
  have heff := runConvert_effect cm idx images im him hnd emptyFs
  constructor
  · intro h1 h2
    have hanns : imageAnns idx im = [] := by
      unfold imageAnns
      rw [h1]
      simp [h2]
    have hout : convertImage cm idx im = .emptyLabel := by
      unfold convertImage
      rw [hdec]
      simp [hanns]
    rw [heff.2.1 hout]
    rfl
  · intro hne hlines
    have hout : convertImage cm idx im = .noFile := by
      unfold convertImage
      rw [hdec]
      simp only [hlines]
      rw [if_neg (by simpa using hne)]
      simp
    rw [heff.1 (Or.inr hout)]
    rfl

/-- Witness for C1: a run over one unannotated image leaves a zero-byte
label file, and a run over one image whose only annotation has an unmapped
taxonomy identifier leaves no label file. -/
theorem empty_vs_missing_label_w :
    runConvert defaultClassMap (fun _ => []) [⟨"foo", "foo.jpg", some (8, 8)⟩] emptyFs
      (labelPath "foo") = some "" ∧
    runConvert defaultClassMap (fun s => if s = "foo" then [⟨some 999, some "1,2,3,4", none⟩] else [])
      [⟨"foo", "foo.jpg", some (8, 8)⟩] emptyFs (labelPath "foo") = none :=
  ⟨(empty_vs_missing_label defaultClassMap (fun _ => []) [⟨"foo", "foo.jpg", some (8, 8)⟩]
      ⟨"foo", "foo.jpg", some (8, 8)⟩ (by decide) (by decide) 8 8 rfl).1 rfl rfl,
   (empty_vs_missing_label defaultClassMap
      (fun s => if s = "foo" then [⟨some 999, some "1,2,3,4", none⟩] else [])
      [⟨"foo", "foo.jpg", some (8, 8)⟩]
      ⟨"foo", "foo.jpg", some (8, 8)⟩ (by decide) (by decide) 8 8 rfl).2
      (by decide) (by decide)⟩

/-- Counterexample to C3: for an image with no annotation group the run
only touches its label file, and `Path.touch()` does not truncate, so the
final contents of a label file the run touches are not determined by the
run's inputs alone: starting from an empty directory the file ends empty,
but starting from a directory where the same path holds prior contents,
those contents survive the run. -/
theorem rerun_rewrite_cex :
    runConvert defaultClassMap (fun _ => []) [⟨"alpha", "alpha.jpg", some (8, 8)⟩] emptyFs
      (labelPath "alpha") = some "" ∧
    runConvert defaultClassMap (fun _ => []) [⟨"alpha", "alpha.jpg", some (8, 8)⟩]
      (fun p => if p = labelPath "alpha" then some "1 0.5 0.5 0.5 0.5\n" else none)
      (labelPath "alpha") = some "1 0.5 0.5 0.5 0.5\n" ∧
    ("" : String) ≠ "1 0.5 0.5 0.5 0.5\n" := by
  decide

/-- C3 amended: a conversion run never deletes a file and never modifies
any path other than the label paths of the scanned images; a label file
written through the non-empty branch is fully rewritten with contents
determined by the run's inputs alone, whatever the pre-existing filesystem;
but a label file reached only through the empty-label branch is merely
touched: created empty when absent and left with its pre-existing contents
otherwise. -/
theorem rerun_rewrite (cm : List (ℤ × ℕ)) (idx : String → List RawAnn)
    (images : List ImageRecord) (fs : FileSys) :
    (∀ q, q ∉ images.map (fun im => labelPath im.stem) →
      runConvert cm idx images fs q = fs q) ∧
    ((images.map ImageRecord.stem).Nodup → ∀ im ∈ images,
      (∀ c, convertImage cm idx im = .labelFile c →
        runConvert cm idx images fs (labelPath im.stem) = some c) ∧
      (convertImage cm idx im = .emptyLabel →
        runConvert cm idx images fs (labelPath im.stem)
          = some ((fs (labelPath im.stem)).getD "")) ∧
      ((convertImage cm idx im = .skipped ∨ convertImage cm idx im = .noFile) →
        runConvert cm idx images fs (labelPath im.stem) = fs (labelPath im.stem))) := by
  constructor
  · intro q hq
    unfold runConvert runActions
    refine runActs_frame fs _ _ (fun a ha => ?_)
    obtain ⟨s, hs, has⟩ := List.mem_flatten.mp ha
    obtain ⟨im', him', rfl⟩ := List.mem_map.mp hs
    rw [actionPath_imageActions has]
    intro hpq
    exact hq (List.mem_map.mpr ⟨im', him', hpq⟩)
  · intro hnd im him
    have heff := runConvert_effect cm idx images im him hnd fs
    exact ⟨heff.2.2, heff.2.1, heff.1⟩

/-- Witness for the amended C3: a run over one annotated image rewrites its
label file with the converted line even when every path of the filesystem
already held other contents, and leaves an unrelated path untouched. -/
theorem rerun_rewrite_w :
    runConvert defaultClassMap
      (fun s => if s = "beta" then [⟨some 11, some "0,0,2,2", none⟩] else [])
      [⟨"beta", "beta.jpg", some (4, 4)⟩] (fun _ => some "junk")
      (labelPath "beta") = some "0 0.250000 0.250000 0.500000 0.500000\n" ∧
    runConvert defaultClassMap
      (fun s => if s = "beta" then [⟨some 11, some "0,0,2,2", none⟩] else [])
      [⟨"beta", "beta.jpg", some (4, 4)⟩] (fun _ => some "junk")
      "other.txt" = some "junk" :=
  ⟨((rerun_rewrite defaultClassMap
      (fun s => if s = "beta" then [⟨some 11, some "0,0,2,2", none⟩] else [])
      [⟨"beta", "beta.jpg", some (4, 4)⟩] (fun _ => some "junk")).2 (by decide)
      ⟨"beta", "beta.jpg", some (4, 4)⟩ (by decide)).1
      "0 0.250000 0.250000 0.500000 0.500000\n" (by decide),
   (rerun_rewrite defaultClassMap
      (fun s => if s = "beta" then [⟨some 11, some "0,0,2,2", none⟩] else [])
      [⟨"beta", "beta.jpg", some (4, 4)⟩] (fun _ => some "junk")).1
      "other.txt" (by decide)⟩

/-- Two distinct labelled images for the C4 witness. -/
def imgsW : List SplitImage := [⟨"a", "a"⟩, ⟨"b", "b"⟩]

/-- Witness for the amended C4: with ratios one half and one half on two
concrete pairs, the concatenated partitions permute the retained pairs. -/
theorem split_partition_invariants_w :
    ((splitRun (1/2 : ℚ) (1/2) imgsW).1 ++ ((splitRun (1/2 : ℚ) (1/2) imgsW).2.1
        ++ (splitRun (1/2 : ℚ) (1/2) imgsW).2.2)).Perm
      (validPairs imgsW (fun _ => true)) :=
  (split_partition_invariants imgsW (fun _ => true) imgsW (1/2) (1/2)
    (by
      have h : validPairs imgsW (fun _ => true) = imgsW := by decide
      rw [h])
    (by norm_num) (by norm_num) (by decide)).1

end YOLO
